import Mathlib

/-!
Verification of an adaptive priority scheduling engine consisting of two C++
translation units: a quantum-simulator task scheduler (`QuantumTask`,
`ComparePriority`, `process_quantum_task`, `split_task`,
`process_quantum_tasks`, `simulate_processor_failure`) and a monitoring-data
server (`MonitoringData`, `ComparePriority`, `process_data`,
`monitoring_station`, `data_handler`, `load_monitor`).

The embedding is shallow: every definition below is translated directly from
the corresponding C++ function.  C++ `int` fields are modelled as `Int` and
C++ integer division (truncation toward zero) as `Int.tdiv`; `size_t` is
modelled as `Nat`.  The `std::priority_queue` is modelled as a list together
with an operation that removes a maximal element with respect to the source's
comparator, which is the container's contract.  Calls to `rand()` are
modelled by explicit numeric arguments, and the shared atomics
(`failed_processor`, `current_load`, `emergency_mode`, `active_handlers`) by
explicit state passed to each step function.
-/

/-- Work item of the quantum-simulator scheduler (struct `QuantumTask`):
`id`, `priority` (lower value = higher priority), `is_critical`,
`duration` in milliseconds, `required_qubits`, and `is_split` marking an
item produced by splitting. -/
structure QuantumTask where
  id : Int
  priority : Int
  is_critical : Bool
  duration : Int
  required_qubits : Int
  is_split : Bool := false
deriving DecidableEq, Repr

/-- The source's `ComparePriority::operator()` for `QuantumTask`: returns
`true` when `t1` orders strictly below `t2` for the max-heap
(first by larger `priority` number, then non-critical below critical,
then by larger `duration`). -/
def comparePriority (t1 t2 : QuantumTask) : Bool :=
  if t1.priority ≠ t2.priority then
    decide (t1.priority > t2.priority)
  else if t1.is_critical ≠ t2.is_critical then
    !t1.is_critical
  else
    decide (t1.duration > t2.duration)

/-- Numeric encoding of the `critical` flag used by the spec's lexicographic
rank: critical items rank before non-critical ones. -/
def critRank (t : QuantumTask) : Nat :=
  if t.is_critical then 0 else 1

/-- The spec's lexicographic rank order on work items:
`(priority, not critical, cost)` compared lexicographically, smaller rank
popped first. -/
def rankLE (a b : QuantumTask) : Prop :=
  a.priority < b.priority ∨
    (a.priority = b.priority ∧
      (critRank a < critRank b ∨
        (critRank a = critRank b ∧ a.duration ≤ b.duration)))

instance (a b : QuantumTask) : Decidable (rankLE a b) := by
  unfold rankLE; infer_instance

/-- Removes a maximal element (with respect to the comparator `lt`, where
`lt a b = true` means `a` orders below `b`) from a list, returning it with
the remaining elements.  This models `top()` followed by `pop()` on
`std::priority_queue`. -/
def pickTop (lt : α → α → Bool) : List α → Option (α × List α)
  | [] => none
  | a :: as =>
    match pickTop lt as with
    | none => some (a, [])
    | some (m, rest) => if lt a m then some (m, a :: rest) else some (a, as)

theorem pickTop_eq_none {lt : α → α → Bool} {q : List α} :
    pickTop lt q = none ↔ q = [] := by
  cases q with
  | nil => simp [pickTop]
  | cons a as =>
    simp only [pickTop]
    cases h : pickTop lt as with
    | none => simp
    | some p => cases p with | mk m rest => by_cases hlt : lt a m <;> simp [hlt]

theorem pickTop_perm {lt : α → α → Bool} :
    ∀ {q : List α} {m : α} {rest : List α},
      pickTop lt q = some (m, rest) → q.Perm (m :: rest) := by
  intro q
  induction q with
  | nil => intro m rest h; simp [pickTop] at h
  | cons a as ih =>
    intro m rest h
    cases hp : pickTop lt as with
    | none =>
      have has : as = [] := pickTop_eq_none.mp hp
      subst has
      simp only [pickTop, Option.some.injEq, Prod.mk.injEq] at h
      obtain ⟨rfl, rfl⟩ := h
      exact List.Perm.refl _
    | some p =>
      obtain ⟨m', rest'⟩ := p
      have hperm : as.Perm (m' :: rest') := ih hp
      simp only [pickTop, hp] at h
      split at h
      · simp only [Option.some.injEq, Prod.mk.injEq] at h
        obtain ⟨rfl, rfl⟩ := h
        exact (hperm.cons a).trans (List.Perm.swap m' a rest')
      · simp only [Option.some.injEq, Prod.mk.injEq] at h
        obtain ⟨rfl, rfl⟩ := h
        exact List.Perm.refl _

theorem pickTop_length {lt : α → α → Bool} {q : List α} {m : α}
    {rest : List α} (h : pickTop lt q = some (m, rest)) :
    q.length = rest.length + 1 := by
  have := (pickTop_perm h).length_eq
  simpa using this

theorem pickTop_mem {lt : α → α → Bool} {q : List α} {m : α}
    {rest : List α} (h : pickTop lt q = some (m, rest)) {x : α}
    (hx : x ∈ q) : x = m ∨ x ∈ rest := by
  have := (pickTop_perm h).mem_iff.mp hx
  simpa using this

theorem rankLE_trans {a b c : QuantumTask} (h1 : rankLE a b)
    (h2 : rankLE b c) : rankLE a c := by
  unfold rankLE at h1 h2 ⊢
  omega

theorem comparePriority_false {a b : QuantumTask}
    (h : comparePriority a b = false) : rankLE a b := by
  unfold comparePriority at h
  unfold rankLE critRank
  cases ha : a.is_critical <;> cases hb : b.is_critical <;>
    by_cases hp : a.priority = b.priority <;>
      simp [ha, hb, hp] at h ⊢ <;> omega

theorem comparePriority_true {a b : QuantumTask}
    (h : comparePriority a b = true) : rankLE b a := by
  unfold comparePriority at h
  unfold rankLE critRank
  cases ha : a.is_critical <;> cases hb : b.is_critical <;>
    by_cases hp : a.priority = b.priority <;>
      simp [ha, hb, hp] at h ⊢ <;> omega

theorem pickTop_min :
    ∀ {q : List QuantumTask} {m : QuantumTask} {rest : List QuantumTask},
      pickTop comparePriority q = some (m, rest) →
      ∀ x ∈ rest, rankLE m x := by
  intro q
  induction q with
  | nil => intro m rest h; simp [pickTop] at h
  | cons a as ih =>
    intro m rest h
    cases hp : pickTop comparePriority as with
    | none =>
      have has : as = [] := pickTop_eq_none.mp hp
      subst has
      simp only [pickTop, Option.some.injEq, Prod.mk.injEq] at h
      obtain ⟨rfl, rfl⟩ := h
      intro x hx
      simp at hx
    | some p =>
      obtain ⟨m', rest'⟩ := p
      simp only [pickTop, hp] at h
      split at h
      case isTrue hlt =>
        simp only [Option.some.injEq, Prod.mk.injEq] at h
        obtain ⟨rfl, rfl⟩ := h
        intro x hx
        rcases List.mem_cons.mp hx with hx | hx
        · subst hx; exact comparePriority_true hlt
        · exact ih hp x hx
      case isFalse hlt =>
        simp only [Option.some.injEq, Prod.mk.injEq] at h
        obtain ⟨rfl, rfl⟩ := h
        intro x hx
        have ham : rankLE a m' :=
          comparePriority_false (Bool.eq_false_iff.mpr hlt)
        rcases pickTop_mem hp hx with hx' | hx'
        · subst hx'; exact ham
        · exact rankLE_trans ham (ih hp x hx')

/-- Pops every element of the queue in priority order, with fuel bounding
the number of pops; `drainQueue` below supplies fuel equal to the queue's
length, which always suffices. -/
def drainAux (lt : α → α → Bool) : Nat → List α → List α
  | 0, _ => []
  | n + 1, q =>
    match pickTop lt q with
    | none => []
    | some (m, rest) => m :: drainAux lt n rest

/-- The sequence obtained by popping the queue until it signals empty:
a sequence of pushes followed by pops with no interleaving. -/
def drainQueue (lt : α → α → Bool) (q : List α) : List α :=
  drainAux lt q.length q

theorem drainAux_perm {lt : α → α → Bool} :
    ∀ (n : Nat) (q : List α), q.length ≤ n → (drainAux lt n q).Perm q := by
  intro n
  induction n with
  | zero =>
    intro q hq
    have : q = [] := List.length_eq_zero.mp (Nat.le_zero.mp hq)
    subst this
    simp [drainAux]
  | succ n ih =>
    intro q hq
    simp only [drainAux]
    cases hp : pickTop lt q with
    | none =>
      have : q = [] := pickTop_eq_none.mp hp
      subst this
      simp
    | some p =>
      cases p with
      | mk m rest =>
        have hlen : q.length = rest.length + 1 := pickTop_length hp
        have hrest : rest.length ≤ n := by omega
        have hperm : (drainAux lt n rest).Perm rest := ih rest hrest
        exact (hperm.cons m).trans (pickTop_perm hp).symm

theorem drainQueue_perm {lt : α → α → Bool} (q : List α) :
    (drainQueue lt q).Perm q :=
  drainAux_perm q.length q (Nat.le_refl _)

theorem drainAux_sorted :
    ∀ (n : Nat) (q : List QuantumTask), q.length ≤ n →
      List.Pairwise rankLE (drainAux comparePriority n q) := by
  intro n
  induction n with
  | zero => intro q hq; simp [drainAux]
  | succ n ih =>
    intro q hq
    simp only [drainAux]
    cases hp : pickTop comparePriority q with
    | none => simp
    | some p =>
      cases p with
      | mk m rest =>
        have hlen : q.length = rest.length + 1 := pickTop_length hp
        have hrest : rest.length ≤ n := by omega
        refine List.pairwise_cons.mpr ⟨?_, ih rest hrest⟩
        intro x hx
        have hxrest : x ∈ rest := (drainAux_perm n rest hrest).mem_iff.mp hx
        exact pickTop_min hp x hxrest

/-- Possible operations on the counting-semaphore resource pool performed by
a single dispatch (`quantum_processors` / `server_capacity`). -/
inductive PoolOp
  | acquire
  | release
deriving DecidableEq, Repr

/-- Outcome reported by a single dispatch of a task to a processor. -/
inductive TaskReport
  | failed (id processor_id : Int)
  | completed (id processor_id : Int)
deriving DecidableEq, Repr

/-- The source's `process_quantum_task`: if the assigned processor equals
the `failed_processor` signal the task is reported failed and the function
returns at once; otherwise it acquires one pool unit, runs, releases the
unit and reports completion.  The first component lists the pool operations
performed, in order. -/
def process_quantum_task (failed_processor : Int) (task : QuantumTask)
    (processor_id : Int) : List PoolOp × TaskReport :=
  if processor_id = failed_processor then
    ([], TaskReport.failed task.id processor_id)
  else
    ([PoolOp.acquire, PoolOp.release],
      TaskReport.completed task.id processor_id)

/-- The source's `split_task`: copies the task, gives it id
`id * 100 + rand() % 100` (the `rand()` value is the explicit argument `r`),
halves `duration` and `required_qubits` with C++ integer division
(truncation toward zero), and marks it split. -/
def split_task (original_task : QuantumTask) (r : Nat) : QuantumTask :=
  { original_task with
      id := original_task.id * 100 + ((r % 100 : Nat) : Int),
      duration := Int.tdiv original_task.duration 2,
      required_qubits := Int.tdiv original_task.required_qubits 2,
      is_split := true }

/-- The split test inlined in `process_quantum_tasks`
(`task.required_qubits > 5 && !task.is_split`, the constant `5` being the
split threshold). -/
def shouldSplitTask (task : QuantumTask) (threshold : Int) : Bool :=
  decide (task.required_qubits > threshold) && !task.is_split

/-- Observable effect of one iteration of the worker loop. -/
inductive WorkerEvent
  | splitEv (id : Int)
  | report (ops : List PoolOp) (r : TaskReport)
deriving DecidableEq, Repr

/-- One iteration of the source's `process_quantum_tasks` loop: if the queue
is empty the loop breaks (`none`); otherwise the top task is popped, and
either split into two sub-tasks that are pushed back (the two `rand()`
values being `r1` and `r2`), or dispatched via `process_quantum_task`. -/
def workerStep (failed_processor processor_id : Int) (r1 r2 : Nat)
    (q : List QuantumTask) : Option (List QuantumTask × WorkerEvent) :=
  match pickTop comparePriority q with
  | none => none
  | some (task, rest) =>
    if shouldSplitTask task 5 then
      some (rest ++ [split_task task r1, split_task task r2],
        WorkerEvent.splitEv task.id)
    else
      some (rest,
        WorkerEvent.report
          (process_quantum_task failed_processor task processor_id).1
          (process_quantum_task failed_processor task processor_id).2)

/-- Runs the worker loop for at most `n` iterations starting at step index
`k` (the stream `rs` supplies the two `rand()` values of each iteration);
`none` means the loop has exited on an empty queue, `some q` that it is
still running with queue `q` after `n` iterations. -/
def workerRunFrom (failed_processor processor_id : Int)
    (rs : Nat → Nat × Nat) : Nat → Nat → List QuantumTask →
    Option (List QuantumTask)
  | _, 0, q => some q
  | k, n + 1, q =>
    match workerStep failed_processor processor_id (rs k).1 (rs k).2 q with
    | none => none
    | some (q', _) => workerRunFrom failed_processor processor_id rs (k + 1) n q'

/-- Termination measure of one task: a splittable task costs one pop plus
two re-enqueued halves, any other task one pop. -/
def taskMeasure (t : QuantumTask) : Nat :=
  if shouldSplitTask t 5 then 3 else 1

/-- Termination measure of the whole queue. -/
def queueMeasure (q : List QuantumTask) : Nat :=
  (q.map taskMeasure).sum

/-- Datum sent by a monitoring station (struct `MonitoringData`). -/
structure MonitoringData where
  station_id : Int
  priority : Int
  is_critical : Bool
  payload : String
  size : Nat
deriving DecidableEq, Repr

/-- The second translation unit's `ComparePriority::operator()` for
`MonitoringData`: priority number, then criticality, then size. -/
def comparePriorityData (d1 d2 : MonitoringData) : Bool :=
  if d1.priority ≠ d2.priority then
    decide (d1.priority > d2.priority)
  else if d1.is_critical ≠ d2.is_critical then
    !d1.is_critical
  else
    decide (d1.size > d2.size)

/-- Admission outcome of `monitoring_station` for one candidate datum. -/
inductive AdmissionResult
  | dropped_overload
  | dropped_emergency
  | enqueued
deriving DecidableEq, Repr

/-- The admission (shedding) checks of `monitoring_station`, applied to a
candidate datum before it is pushed: drop on server overload
(`current_load > 80`, non-critical, `priority > 3`), else drop in emergency
mode (non-critical, `priority > 2`), else enqueue. -/
def monitoringAdmission (current_load : Nat) (emergency_mode : Bool)
    (data : MonitoringData) : AdmissionResult :=
  if current_load > 80 ∧ data.is_critical = false ∧ data.priority > 3 then
    AdmissionResult.dropped_overload
  else if emergency_mode = true ∧ data.priority > 2 ∧
      data.is_critical = false then
    AdmissionResult.dropped_emergency
  else
    AdmissionResult.enqueued

/-- Observable effect of one iteration of `data_handler`. -/
inductive HandlerAction
  | processed (station_id : Int) (ops : List PoolOp)
  | slept
deriving DecidableEq, Repr

/-- One iteration of the source's `data_handler` loop: pop and process the
top datum when the queue is non-empty, otherwise sleep 100ms and retry; the
loop body never breaks, so the step always yields a successor state. -/
def data_handler_step (q : List MonitoringData) :
    Option (List MonitoringData × HandlerAction) :=
  match pickTop comparePriorityData q with
  | none => some (q, HandlerAction.slept)
  | some (data, rest) =>
    some (rest,
      HandlerAction.processed data.station_id [PoolOp.acquire, PoolOp.release])

/-- Emergency-hysteresis state of `load_monitor`: the static
`emergency_counter` and the `emergency_mode` flag. -/
structure EmergencyState where
  counter : Nat
  emergency : Bool
deriving DecidableEq, Repr

/-- The emergency-detection tail of one `load_monitor` iteration: a sample
above 95 increments the counter and raises `emergency_mode` once the counter
exceeds 3; any other sample resets the counter and clears the mode. -/
def emergencyStep (s : EmergencyState) (load : Nat) : EmergencyState :=
  if load > 95 then
    { counter := s.counter + 1,
      emergency := s.emergency || decide (s.counter + 1 > 3) }
  else
    { counter := 0, emergency := false }

/-- The emergency-hysteresis state after a finite sequence of load samples. -/
def emergencyRun (loads : List Nat) (s : EmergencyState) : EmergencyState :=
  loads.foldl emergencyStep s

/-- The capacity-adaptation part of one `load_monitor` iteration on
`active_handlers`: grow by one when the load exceeds 80 and fewer than 10
handlers are active, shrink by one when the load is under 50 and more than
5 handlers are active. -/
def capacityStep (load : Nat) (active_handlers : Int) : Int :=
  if load > 80 ∧ active_handlers < 10 then
    active_handlers + 1
  else if load < 50 ∧ active_handlers > 5 then
    active_handlers - 1
  else
    active_handlers

/-- Full state mutated by one `load_monitor` iteration. -/
structure MonitorState where
  active_handlers : Int
  counter : Nat
  emergency : Bool
deriving DecidableEq, Repr

/-- One full `load_monitor` iteration for a given load sample: the
capacity-adaptation branch followed by the emergency-hysteresis branch. -/
def loadMonitorStep (load : Nat) (s : MonitorState) : MonitorState :=
  let h := capacityStep load s.active_handlers
  let e := emergencyStep { counter := s.counter, emergency := s.emergency } load
  { active_handlers := h, counter := e.counter, emergency := e.emergency }

theorem queueMeasure_perm {q q' : List QuantumTask} (h : q.Perm q') :
    queueMeasure q = queueMeasure q' :=
  (h.map taskMeasure).sum_eq

theorem taskMeasure_pos (t : QuantumTask) : 1 ≤ taskMeasure t := by
  unfold taskMeasure
  split <;> omega

theorem taskMeasure_split (t : QuantumTask) (r : Nat) :
    taskMeasure (split_task t r) = 1 := by
  simp [taskMeasure, shouldSplitTask, split_task]

theorem queueMeasure_nil : queueMeasure [] = 0 := rfl

theorem queueMeasure_cons (t : QuantumTask) (q : List QuantumTask) :
    queueMeasure (t :: q) = taskMeasure t + queueMeasure q := by
  simp [queueMeasure]

theorem queueMeasure_append (q q' : List QuantumTask) :
    queueMeasure (q ++ q') = queueMeasure q + queueMeasure q' := by
  simp [queueMeasure]

theorem workerStep_measure_lt {fp pid : Int} {r1 r2 : Nat}
    {q q' : List QuantumTask} {ev : WorkerEvent}
    (h : workerStep fp pid r1 r2 q = some (q', ev)) :
    queueMeasure q' < queueMeasure q := by
  cases htop : pickTop comparePriority q with
  | none =>
    simp only [workerStep, htop] at h
    exact Option.noConfusion h
  | some p =>
    obtain ⟨t, rest⟩ := p
    simp only [workerStep, htop] at h
    have hq : queueMeasure q = taskMeasure t + queueMeasure rest := by
      have := queueMeasure_perm (pickTop_perm htop)
      rw [this, queueMeasure_cons]
    split at h
    case isTrue hsplit =>
      simp only [Option.some.injEq, Prod.mk.injEq] at h
      obtain ⟨rfl, -⟩ := h
      have hm : taskMeasure t = 3 := by unfold taskMeasure; rw [if_pos hsplit]
      rw [hq, queueMeasure_append, queueMeasure_cons, queueMeasure_cons,
        queueMeasure_nil, taskMeasure_split, taskMeasure_split, hm]
      omega
    case isFalse hsplit =>
      simp only [Option.some.injEq, Prod.mk.injEq] at h
      obtain ⟨rfl, -⟩ := h
      have := taskMeasure_pos t
      omega

theorem workerStep_nil (fp pid : Int) (r1 r2 : Nat) :
    workerStep fp pid r1 r2 [] = none := rfl

theorem workerRunFrom_terminates (fp pid : Int) (rs : Nat → Nat × Nat) :
    ∀ (N k : Nat) (q : List QuantumTask), queueMeasure q ≤ N →
      ∃ n, workerRunFrom fp pid rs k n q = none := by
  intro N
  induction N with
  | zero =>
    intro k q hq
    have hq0 : q = [] := by
      cases q with
      | nil => rfl
      | cons a as =>
        exfalso
        rw [queueMeasure_cons] at hq
        have := taskMeasure_pos a
        omega
    subst hq0
    exact ⟨1, by simp [workerRunFrom, workerStep_nil]⟩
  | succ N ih =>
    intro k q hq
    cases hs : workerStep fp pid (rs k).1 (rs k).2 q with
    | none => exact ⟨1, by simp [workerRunFrom, hs]⟩
    | some p =>
      obtain ⟨q', ev⟩ := p
      have hlt := workerStep_measure_lt hs
      obtain ⟨n, hn⟩ := ih (k + 1) q' (by omega)
      exact ⟨n + 1, by simp [workerRunFrom, hs, hn]⟩

theorem emergencyRun_replicate_high {h : Nat} (hh : 95 < h) :
    ∀ (k c : Nat) (e : Bool),
      emergencyRun (List.replicate k h) ⟨c, e⟩ =
        ⟨c + k, e || decide (1 ≤ k ∧ 3 < c + k)⟩ := by
  intro k
  induction k with
  | zero => intro c e; simp [emergencyRun]
  | succ n ih =>
    intro c e
    rw [List.replicate_succ]
    have hstep : emergencyStep ⟨c, e⟩ h =
        ⟨c + 1, e || decide (3 < c + 1)⟩ := by
      unfold emergencyStep
      rw [if_pos (by omega)]
    have hcons : emergencyRun (h :: List.replicate n h) ⟨c, e⟩ =
        emergencyRun (List.replicate n h) (emergencyStep ⟨c, e⟩ h) := by
      simp [emergencyRun]
    rw [hcons, hstep, ih (c + 1) (e || decide (3 < c + 1))]
    have hcnt : c + 1 + n = c + (n + 1) := by omega
    rw [hcnt]
    have hb : (e || decide (3 < c + 1) || decide (1 ≤ n ∧ 3 < c + (n + 1))) =
        (e || decide (1 ≤ n + 1 ∧ 3 < c + (n + 1))) := by
      cases e
      · by_cases h1 : 3 < c + 1 <;>
          by_cases h2 : 1 ≤ n ∧ 3 < c + (n + 1) <;>
            by_cases h3 : 1 ≤ n + 1 ∧ 3 < c + (n + 1) <;>
              simp [h1, h2, h3] <;> omega
      · simp
    rw [hb]

/-- C1: for every sequence of pushes into the priority queue followed by
pops with no interleaving, the pops return items in non-decreasing
lexicographic rank ordered by priority ascending, critical before
non-critical, cost ascending; in particular, for two items with identical
priority where exactly one is critical, the critical one is popped first
regardless of insertion order. -/
theorem pop_order_lexicographic :
    (∀ q : List QuantumTask,
      List.Pairwise rankLE (drainQueue comparePriority q)) ∧
    (∀ a b : QuantumTask, a.priority = b.priority →
      a.is_critical = true → b.is_critical = false →
      drainQueue comparePriority [a, b] = [a, b] ∧
      drainQueue comparePriority [b, a] = [a, b]) := by
  constructor
  · intro q
    exact drainAux_sorted q.length q (Nat.le_refl _)
  · intro a b hp ha hb
    constructor <;>
      simp [drainQueue, drainAux, pickTop, comparePriority, hp, ha, hb]

theorem pop_order_lexicographic_witness :
    List.Pairwise rankLE (drainQueue comparePriority
      [⟨1, 1, true, 2000, 8, false⟩, ⟨2, 3, false, 3000, 6, false⟩]) ∧
    drainQueue comparePriority
      [⟨2, 2, false, 300, 4, false⟩, ⟨1, 2, true, 400, 7, false⟩] =
      [⟨1, 2, true, 400, 7, false⟩, ⟨2, 2, false, 300, 4, false⟩] :=
  ⟨pop_order_lexicographic.1 _,
    (pop_order_lexicographic.2 ⟨1, 2, true, 400, 7, false⟩
      ⟨2, 2, false, 300, 4, false⟩ rfl rfl rfl).2⟩

/-- C2: once the failed-unit signal equals a unit `U`, any dispatch of an
item to unit `U` reports the item as failed and returns without ever
performing an acquire on the resource pool. -/
theorem failed_unit_fail_fast (failed_processor : Int) (task : QuantumTask)
    (processor_id : Int) (h : processor_id = failed_processor) :
    (process_quantum_task failed_processor task processor_id).2 =
      TaskReport.failed task.id processor_id ∧
    PoolOp.acquire ∉ (process_quantum_task failed_processor task processor_id).1 := by
  subst h
  simp [process_quantum_task]

theorem failed_unit_fail_fast_witness :
    (process_quantum_task 2 ⟨1, 1, true, 2000, 8, false⟩ 2).2 =
      TaskReport.failed 1 2 ∧
    PoolOp.acquire ∉ (process_quantum_task 2 ⟨1, 1, true, 2000, 8, false⟩ 2).1 :=
  failed_unit_fail_fast 2 ⟨1, 1, true, 2000, 8, false⟩ 2 rfl

/-- C7: for every work item and threshold, the split test returns true
exactly when the item's weight exceeds the threshold and the item is not
already derived; every child produced by a split is marked derived, so a
child is never split again even if its weight still exceeds the threshold
(an item of weight 10 yields children of weight 5 that are never
re-split). -/
theorem shouldSplit_contract (t : QuantumTask) (threshold : Int) (r : Nat) :
    (shouldSplitTask t threshold = true ↔
      threshold < t.required_qubits ∧ t.is_split = false) ∧
    (split_task t r).is_split = true ∧
    shouldSplitTask (split_task t r) threshold = false ∧
    (t.required_qubits = 10 → (split_task t r).required_qubits = 5) := by
  refine ⟨?_, rfl, ?_, ?_⟩
  · simp [shouldSplitTask]
  · simp [shouldSplitTask, split_task]
  · intro h
    show Int.tdiv t.required_qubits 2 = 5
    rw [h]
    decide

theorem shouldSplit_contract_witness :
    (split_task ⟨3, 2, false, 1500, 10, false⟩ 7).required_qubits = 5 :=
  (shouldSplit_contract ⟨3, 2, false, 1500, 10, false⟩ 5 7).2.2.2 rfl

/-- C10: splitting leaves the child's priority and critical flag equal to
the parent's; `split_task` changes only the id, the duration, the
required-qubits count and the is-split flag, and the other fields of the
returned child are unchanged copies of the parent's. -/
theorem split_task_frame (t : QuantumTask) (r : Nat) :
    (split_task t r).priority = t.priority ∧
    (split_task t r).is_critical = t.is_critical ∧
    (split_task t r).id = t.id * 100 + ((r % 100 : Nat) : Int) ∧
    (split_task t r).duration = Int.tdiv t.duration 2 ∧
    (split_task t r).required_qubits = Int.tdiv t.required_qubits 2 ∧
    (split_task t r).is_split = true :=
  ⟨rfl, rfl, rfl, rfl, rfl, rfl⟩

/-- C5: a candidate datum presented by a producer before enqueue is dropped
exactly when either the current load exceeds 80, the datum is non-critical
and its priority value is greater than 3, or emergency mode is on, the
datum is non-critical and its priority value is greater than the stricter
cutoff 2; otherwise it is enqueued. -/
theorem admission_drop_iff (current_load : Nat) (emergency_mode : Bool)
    (data : MonitoringData) :
    monitoringAdmission current_load emergency_mode data ≠
        AdmissionResult.enqueued ↔
      ((80 < current_load ∧ data.is_critical = false ∧ 3 < data.priority) ∨
        (emergency_mode = true ∧ data.is_critical = false ∧
          2 < data.priority)) := by
  unfold monitoringAdmission
  split_ifs with h1 h2
  · constructor
    · intro _
      exact Or.inl h1
    · intro _ hc
      exact AdmissionResult.noConfusion hc
  · constructor
    · intro _
      exact Or.inr ⟨h2.1, h2.2.2, h2.2.1⟩
    · intro _ hc
      exact AdmissionResult.noConfusion hc
  · constructor
    · intro hc
      exact absurd rfl hc
    · intro hor
      rcases hor with h | h
      · exact absurd h h1
      · exact absurd ⟨h.1, h.2.2, h.2.1⟩ h2

/-- C8: the bounds 5 and 10 on the handler count are an invariant preserved
by every load-monitor step: the count is incremented by one exactly when
the load exceeds 80 and the count is below 10, and decremented by one
exactly when the load is below 50 and the count is above 5. -/
theorem capacity_bounds_invariant (load : Nat) (c : Int) :
    (5 ≤ c → c ≤ 10 → 5 ≤ capacityStep load c ∧ capacityStep load c ≤ 10) ∧
    (capacityStep load c = c + 1 ↔ (80 < load ∧ c < 10)) ∧
    (capacityStep load c = c - 1 ↔ (load < 50 ∧ 5 < c)) ∧
    (loadMonitorStep load ⟨c, 0, false⟩).active_handlers =
      capacityStep load c := by
  refine ⟨?_, ?_, ?_, rfl⟩ <;> unfold capacityStep <;> split_ifs <;> omega

theorem capacity_bounds_invariant_witness :
    5 ≤ capacityStep 90 7 ∧ capacityStep 90 7 ≤ 10 :=
  (capacity_bounds_invariant 90 7).1 (by decide) (by decide)

/-- C6: in the load-monitor step relation, emergency mode becomes true only
after more than 3 consecutive samples above 95 (it turns true on the 4th
consecutive over-threshold sample), and a single sample at or below 95 both
resets the consecutive-breach counter and clears emergency mode
immediately. -/
theorem emergency_mode_hysteresis :
    (∀ load : Nat, 95 < load → ∀ k : Nat,
      emergencyRun (List.replicate k load) ⟨0, false⟩ =
        ⟨k, decide (4 ≤ k)⟩) ∧
    (∀ (s : EmergencyState) (load : Nat), load ≤ 95 →
      emergencyStep s load = ⟨0, false⟩) ∧
    (∀ (load : Nat) (s : MonitorState),
      (loadMonitorStep load s).counter =
        (emergencyStep ⟨s.counter, s.emergency⟩ load).counter ∧
      (loadMonitorStep load s).emergency =
        (emergencyStep ⟨s.counter, s.emergency⟩ load).emergency) := by
  refine ⟨?_, ?_, fun load s => ⟨rfl, rfl⟩⟩
  · intro load hl k
    rw [emergencyRun_replicate_high hl k 0 false]
    have h1 : 0 + k = k := by omega
    rw [h1]
    simp only [Bool.false_or]
    have h2 : decide (1 ≤ k ∧ 3 < k) = decide (4 ≤ k) := by
      by_cases hk : 4 ≤ k <;> simp [hk] <;> omega
    rw [h2]
  · intro s load hl
    unfold emergencyStep
    rw [if_neg (by omega)]

theorem emergency_mode_hysteresis_witness :
    emergencyRun (List.replicate 4 100) ⟨0, false⟩ = ⟨4, true⟩ ∧
    emergencyRun (List.replicate 3 100) ⟨0, false⟩ = ⟨3, false⟩ ∧
    emergencyStep ⟨7, true⟩ 95 = ⟨0, false⟩ := by
  refine ⟨?_, ?_, emergency_mode_hysteresis.2.1 ⟨7, true⟩ 95 (by omega)⟩
  · have := emergency_mode_hysteresis.1 100 (by omega) 4
    simpa using this
  · have := emergency_mode_hysteresis.1 100 (by omega) 3
    simpa using this

/-- C4: a split yields exactly two children, each with cost and weight
halved by truncating integer division (a deterministic rounding rule), and
for an item satisfying the positivity invariant the children's costs and
weights each sum to at most the parent's, with equality exactly when no
rounding loss occurs (the halved quantity is even). -/
theorem split_two_halved_children (t : QuantumTask) (r1 r2 : Nat)
    (failed_processor processor_id : Int) (q rest : List QuantumTask)
    (htop : pickTop comparePriority q = some (t, rest))
    (hsplit : shouldSplitTask t 5 = true)
    (hdur : 0 < t.duration) (hqub : 0 < t.required_qubits) :
    workerStep failed_processor processor_id r1 r2 q =
      some (rest ++ [split_task t r1, split_task t r2],
        WorkerEvent.splitEv t.id) ∧
    (split_task t r1).duration = Int.tdiv t.duration 2 ∧
    (split_task t r2).duration = Int.tdiv t.duration 2 ∧
    (split_task t r1).required_qubits = Int.tdiv t.required_qubits 2 ∧
    (split_task t r2).required_qubits = Int.tdiv t.required_qubits 2 ∧
    (split_task t r1).duration + (split_task t r2).duration ≤ t.duration ∧
    ((split_task t r1).duration + (split_task t r2).duration = t.duration ↔
      t.duration % 2 = 0) ∧
    (split_task t r1).required_qubits + (split_task t r2).required_qubits ≤
      t.required_qubits ∧
    ((split_task t r1).required_qubits + (split_task t r2).required_qubits =
      t.required_qubits ↔ t.required_qubits % 2 = 0) := by
  have hd2 : Int.tdiv t.duration 2 = t.duration / 2 :=
    Int.tdiv_eq_ediv (by omega) (by omega)
  have hq2 : Int.tdiv t.required_qubits 2 = t.required_qubits / 2 :=
    Int.tdiv_eq_ediv (by omega) (by omega)
  refine ⟨?_, rfl, rfl, rfl, rfl, ?_, ?_, ?_, ?_⟩
  · simp [workerStep, htop, hsplit]
  · show Int.tdiv t.duration 2 + Int.tdiv t.duration 2 ≤ t.duration
    rw [hd2]; omega
  · show Int.tdiv t.duration 2 + Int.tdiv t.duration 2 = t.duration ↔
      t.duration % 2 = 0
    rw [hd2]; omega
  · show Int.tdiv t.required_qubits 2 + Int.tdiv t.required_qubits 2 ≤
      t.required_qubits
    rw [hq2]; omega
  · show Int.tdiv t.required_qubits 2 + Int.tdiv t.required_qubits 2 =
      t.required_qubits ↔ t.required_qubits % 2 = 0
    rw [hq2]; omega

theorem split_two_halved_children_witness :
    workerStep (-1) 0 4 7 [⟨2, 3, false, 3000, 6, false⟩] =
      some ([split_task ⟨2, 3, false, 3000, 6, false⟩ 4,
              split_task ⟨2, 3, false, 3000, 6, false⟩ 7],
        WorkerEvent.splitEv 2) ∧
    (split_task ⟨2, 3, false, 3000, 6, false⟩ 4).duration +
      (split_task ⟨2, 3, false, 3000, 6, false⟩ 7).duration ≤ 3000 := by
  have h := split_two_halved_children ⟨2, 3, false, 3000, 6, false⟩ 4 7
    (-1) 0 [⟨2, 3, false, 3000, 6, false⟩] [] rfl rfl
    (by decide) (by decide)
  exact ⟨h.1, h.2.2.2.2.2.1⟩

/-- C3 counterexample: a task with duration 1 and required qubits 6 is
split by the worker (not executed unsplit), even though each resulting
half has duration 0, a non-positive cost. -/
theorem split_not_validated_counterexample :
    shouldSplitTask ⟨7, 3, false, 1, 6, false⟩ 5 = true ∧
    workerStep (-1) 0 0 0 [⟨7, 3, false, 1, 6, false⟩] =
      some ([split_task ⟨7, 3, false, 1, 6, false⟩ 0,
              split_task ⟨7, 3, false, 1, 6, false⟩ 0],
        WorkerEvent.splitEv 7) ∧
    (split_task ⟨7, 3, false, 1, 6, false⟩ 0).duration = 0 := by
  refine ⟨rfl, ?_, rfl⟩
  decide

/-- C3 amended: the worker performs no positivity validation on the halves
and never rejects a split: whenever the popped task's weight exceeds 5 and
it is not yet derived, it is split and both children are enqueued.  The
children's weight is then always at least 3, hence positive, but a child's
cost is not validated: for a parent of positive cost the child's cost is
positive exactly when the parent's cost is at least 2. -/
theorem split_no_positivity_validation (t : QuantumTask) (r r1 r2 : Nat)
    (failed_processor processor_id : Int) (q rest : List QuantumTask)
    (htop : pickTop comparePriority q = some (t, rest))
    (hqub : 5 < t.required_qubits) (hns : t.is_split = false) :
    workerStep failed_processor processor_id r1 r2 q =
      some (rest ++ [split_task t r1, split_task t r2],
        WorkerEvent.splitEv t.id) ∧
    3 ≤ (split_task t r).required_qubits ∧
    (0 < t.duration → (0 < (split_task t r).duration ↔ 2 ≤ t.duration)) := by
  have hq2 : Int.tdiv t.required_qubits 2 = t.required_qubits / 2 :=
    Int.tdiv_eq_ediv (by omega) (by omega)
  refine ⟨?_, ?_, ?_⟩
  · simp [workerStep, htop, shouldSplitTask, hqub, hns]
  · show 3 ≤ Int.tdiv t.required_qubits 2
    rw [hq2]; omega
  · intro hd
    have hd2 : Int.tdiv t.duration 2 = t.duration / 2 :=
      Int.tdiv_eq_ediv (by omega) (by omega)
    show 0 < Int.tdiv t.duration 2 ↔ 2 ≤ t.duration
    rw [hd2]; omega

theorem split_no_positivity_validation_witness :
    3 ≤ (split_task ⟨7, 3, false, 1, 6, false⟩ 9).required_qubits ∧
    (0 < (split_task ⟨7, 3, false, 1, 6, false⟩ 9).duration ↔
      (2 : Int) ≤ 1) := by
  have h := split_no_positivity_validation ⟨7, 3, false, 1, 6, false⟩ 9 0 0
    (-1) 0 [⟨7, 3, false, 1, 6, false⟩] [] rfl (by decide) rfl
  exact ⟨h.2.1, h.2.2 (by decide)⟩

/-- C9: a worker in a bounded-population run terminates its loop when the
pop signals empty, and each non-final iteration strictly decreases the
queue measure, so for every finite initial queue the bounded-run worker
loop terminates in finitely many iterations; the continuously-running
service handler instead never exits: on an empty queue it sleeps, leaves
the queue unchanged and retries. -/
theorem worker_terminates_handler_retries :
    (∀ (failed_processor processor_id : Int) (r1 r2 : Nat),
      workerStep failed_processor processor_id r1 r2 [] = none) ∧
    (∀ (failed_processor processor_id : Int) (r1 r2 : Nat)
        (q q' : List QuantumTask) (ev : WorkerEvent),
      workerStep failed_processor processor_id r1 r2 q = some (q', ev) →
      queueMeasure q' < queueMeasure q) ∧
    (∀ (failed_processor processor_id : Int) (rs : Nat → Nat × Nat)
        (k : Nat) (q : List QuantumTask),
      ∃ n, workerRunFrom failed_processor processor_id rs k n q = none) ∧
    (∀ q : List MonitoringData, data_handler_step q ≠ none) ∧
    data_handler_step [] = some ([], HandlerAction.slept) := by
  refine ⟨fun fp pid r1 r2 => workerStep_nil fp pid r1 r2, ?_, ?_, ?_, rfl⟩
  · intro fp pid r1 r2 q q' ev h
    exact workerStep_measure_lt h
  · intro fp pid rs k q
    exact workerRunFrom_terminates fp pid rs (queueMeasure q) k q (Nat.le_refl _)
  · intro q
    unfold data_handler_step
    cases pickTop comparePriorityData q with
    | none => simp
    | some p => cases p with | mk d rest => simp

theorem worker_terminates_handler_retries_witness :
    queueMeasure [] < queueMeasure [⟨8, 1, true, 500, 2, false⟩] :=
  worker_terminates_handler_retries.2.1 (-1) 0 0 0
    [⟨8, 1, true, 500, 2, false⟩] []
    (WorkerEvent.report [PoolOp.acquire, PoolOp.release]
      (TaskReport.completed 8 0)) (by decide)
